import Mathlib

/-!
Verification development for the bank-account event-sourcing/CQRS service.

The definitions below are a shallow embedding of the TypeScript sources:
* `BankAccount` and its command handlers mirror `src/domain/BankAccount.ts`
  (shipped as `src/config/database.ts` in this snapshot),
* `EventStore.save` mirrors `src/lib/EventStore.ts`,
* `project` and the read models mirror `src/lib/Projector.ts` together with
  the table definitions in `seeds/init.sql`,
* the route-level orchestration (load, command, project, snapshot) mirrors
  `src/routes.ts`.

Monetary amounts are modelled as rationals (`ℚ`), timestamps as integers
(epoch milliseconds), versions and event numbers as naturals.  Event ids are
produced by `uuidv4()` in the source and never influence any behaviour; the
embedding fixes them to `""`.  Wall-clock timestamps (`new Date()`) are passed
in as an explicit `now` argument.
-/

/-- Lifecycle status of an account (`'OPEN' | 'CLOSED'` in `types.ts`). -/
inductive AccountStatus where
  | OPEN
  | CLOSED
deriving DecidableEq, Repr

/-- The four event kinds (`EventType` in `types.ts`). -/
inductive EventType where
  | AccountCreated
  | MoneyDeposited
  | MoneyWithdrawn
  | AccountClosed
deriving DecidableEq, Repr

/-- Kind-specific event payload (`AccountCreatedData`, `MoneyDepositedData`,
`MoneyWithdrawnData`, `AccountClosedData` in `types.ts`), combined into a
tagged union as suggested by the design notes.  `description` and `reason`
are optional in the source. -/
inductive EventData where
  | created (ownerName : String) (initialBalance : ℚ) (currency : String)
  | deposited (amount : ℚ) (description : Option String) (transactionId : String)
  | withdrawn (amount : ℚ) (description : Option String) (transactionId : String)
  | closed (reason : Option String)
deriving DecidableEq, Repr

/-- The `eventType` discriminator attached to each payload. -/
def EventData.eventType : EventData → EventType
  | .created _ _ _ => .AccountCreated
  | .deposited _ _ _ => .MoneyDeposited
  | .withdrawn _ _ _ => .MoneyWithdrawn
  | .closed _ => .AccountClosed

/-- `DomainEvent` from `types.ts`.  `eventType` is determined by `eventData`
(the source always builds matching pairs). -/
structure DomainEvent where
  eventId : String
  aggregateId : String
  aggregateType : String
  eventData : EventData
  eventNumber : Nat
  timestamp : Int
  version : Nat
deriving DecidableEq, Repr

/-- `event.eventType` of a `DomainEvent`. -/
def DomainEvent.eventType (e : DomainEvent) : EventType :=
  e.eventData.eventType

/-- JavaScript `Set.add`: insertion-ordered, keeps the first occurrence. -/
def jsSetAdd (s : List String) (t : String) : List String :=
  if t ∈ s then s else s ++ [t]

/-- JavaScript `new Set(array)`: dedups, keeping first occurrences in order. -/
def jsSetFromList (l : List String) : List String :=
  l.foldl jsSetAdd []

/-- `BankAccountState` from `types.ts`; the processed-transaction `Set` is
modelled as an insertion-ordered duplicate-free list. -/
structure BankAccountState where
  accountId : String
  ownerName : String
  balance : ℚ
  currency : String
  status : AccountStatus
  processedTransactionIds : List String
deriving DecidableEq, Repr

/-- The `BankAccount` aggregate: state, uncommitted changes, version. -/
structure BankAccount where
  state : BankAccountState
  changes : List DomainEvent
  version : Nat
deriving DecidableEq, Repr

namespace BankAccount

/-- `new BankAccount()`: the constructor's zeroed state. -/
def new : BankAccount :=
  { state :=
      { accountId := ""
        ownerName := ""
        balance := 0
        currency := ""
        status := .CLOSED
        processedTransactionIds := [] }
    changes := []
    version := 0 }

/-- `BankAccount.apply(event)`: pure event application; note that the version
is assigned from the event (`this.version = event.version`). -/
def apply (a : BankAccount) (e : DomainEvent) : BankAccount :=
  let s := a.state
  let s' : BankAccountState :=
    match e.eventData with
    | .created ow init cur =>
        { s with accountId := e.aggregateId, ownerName := ow, balance := init,
                 currency := cur, status := .OPEN }
    | .deposited amt _ tx =>
        { s with balance := s.balance + amt,
                 processedTransactionIds := jsSetAdd s.processedTransactionIds tx }
    | .withdrawn amt _ tx =>
        { s with balance := s.balance - amt,
                 processedTransactionIds := jsSetAdd s.processedTransactionIds tx }
    | .closed _ =>
        { s with status := .CLOSED }
  { a with state := s', version := e.version }

/-- `BankAccount.create(id, ownerName, initialBalance, currency)`. -/
def create (id ownerName : String) (initialBalance : ℚ) (currency : String)
    (now : Int) : BankAccount :=
  let e : DomainEvent :=
    { eventId := ""
      aggregateId := id
      aggregateType := "BankAccount"
      eventData := .created ownerName initialBalance currency
      eventNumber := 1
      timestamp := now
      version := 1 }
  let account := BankAccount.new.apply e
  { account with changes := account.changes ++ [e] }

/-- `BankAccount.deposit(amount, description, transactionId)`.  Thrown
`Error`s become `Except.error` with the source's message; the idempotent
duplicate returns the account unchanged. -/
def deposit (a : BankAccount) (now : Int) (amount : ℚ)
    (description : Option String) (transactionId : String) :
    Except String BankAccount :=
  if a.state.status = .CLOSED then .error "Account is closed"
  else if amount ≤ 0 then .error "Deposit amount must be positive"
  else if transactionId ∈ a.state.processedTransactionIds then .ok a
  else
    let newVersion := a.version + 1
    let e : DomainEvent :=
      { eventId := ""
        aggregateId := a.state.accountId
        aggregateType := "BankAccount"
        eventData := .deposited amount description transactionId
        eventNumber := newVersion
        timestamp := now
        version := newVersion }
    let a' := a.apply e
    .ok { a' with changes := a'.changes ++ [e] }

/-- `BankAccount.withdraw(amount, description, transactionId)`; the balance
check precedes the idempotency check, as in the source. -/
def withdraw (a : BankAccount) (now : Int) (amount : ℚ)
    (description : Option String) (transactionId : String) :
    Except String BankAccount :=
  if a.state.status = .CLOSED then .error "Account is closed"
  else if amount ≤ 0 then .error "Withdrawal amount must be positive"
  else if a.state.balance < amount then .error "Insufficient funds"
  else if transactionId ∈ a.state.processedTransactionIds then .ok a
  else
    let newVersion := a.version + 1
    let e : DomainEvent :=
      { eventId := ""
        aggregateId := a.state.accountId
        aggregateType := "BankAccount"
        eventData := .withdrawn amount description transactionId
        eventNumber := newVersion
        timestamp := now
        version := newVersion }
    let a' := a.apply e
    .ok { a' with changes := a'.changes ++ [e] }

/-- `BankAccount.close(reason)`. -/
def close (a : BankAccount) (now : Int) (reason : Option String) :
    Except String BankAccount :=
  if a.state.status = .CLOSED then .error "Account is already closed"
  else if a.state.balance ≠ 0 then .error "Cannot close account with non-zero balance"
  else
    let newVersion := a.version + 1
    let e : DomainEvent :=
      { eventId := ""
        aggregateId := a.state.accountId
        aggregateType := "BankAccount"
        eventData := .closed reason
        eventNumber := newVersion
        timestamp := now
        version := newVersion }
    let a' := a.apply e
    .ok { a' with changes := a'.changes ++ [e] }

end BankAccount

/-- Serialized snapshot payload: the aggregate state with the processed
transaction `Set` written out as a list (`Array.from` in `routes.ts`),
together with the `last_event_number` column. -/
structure SnapshotData where
  accountId : String
  ownerName : String
  balance : ℚ
  currency : String
  status : AccountStatus
  processedTransactionIds : List String
  lastEventNumber : Nat
deriving DecidableEq, Repr

/-- Serialization performed by the routes before `saveSnapshot`:
`{...account.state, processedTransactionIds: Array.from(set)}`. -/
def BankAccount.toSnapshotData (a : BankAccount) (lastEventNumber : Nat) :
    SnapshotData :=
  { accountId := a.state.accountId
    ownerName := a.state.ownerName
    balance := a.state.balance
    currency := a.state.currency
    status := a.state.status
    processedTransactionIds := a.state.processedTransactionIds
    lastEventNumber := lastEventNumber }

/-- The snapshot branch of `BankAccount.hydrate`: spread the snapshot data
into the state, restore the `Set` from the serialized array, and set the
version to the snapshot's last event number. -/
def BankAccount.restoreFromSnapshot (snap : SnapshotData) : BankAccount :=
  { state :=
      { accountId := snap.accountId
        ownerName := snap.ownerName
        balance := snap.balance
        currency := snap.currency
        status := snap.status
        processedTransactionIds := jsSetFromList snap.processedTransactionIds }
    changes := []
    version := snap.lastEventNumber }

/-- `BankAccount.hydrate(events, snapshot?)`: start from the restored
snapshot state when one is given, else from the fresh constructor state, and
replay the events on top. -/
def BankAccount.hydrate (events : List DomainEvent)
    (snapshot : Option SnapshotData) : BankAccount :=
  match snapshot with
  | some snap => events.foldl BankAccount.apply (BankAccount.restoreFromSnapshot snap)
  | none => events.foldl BankAccount.apply BankAccount.new

/-- `EventStore.save(event)`, modelled over a pure event log (the list of
rows of the `events` table in insertion order).  The `SELECT 1 ... WHERE
aggregate_id = $1 AND event_number = $2` pre-check (equivalently the
`UNIQUE(aggregate_id, event_number)` constraint of `seeds/init.sql`) decides
between a thrown concurrency conflict and the `INSERT`; `BEGIN`/`ROLLBACK`
make the failure leave the table untouched, which the pure model reflects by
returning an error without a new log. -/
def EventStore.save (log : List DomainEvent) (e : DomainEvent) :
    Except String (List DomainEvent) :=
  if log.any (fun x => x.aggregateId = e.aggregateId ∧ x.eventNumber = e.eventNumber) then
    .error ("Concurrency conflict: Event number " ++ toString e.eventNumber ++
      " already exists for aggregate " ++ e.aggregateId)
  else
    .ok (log ++ [e])

/-- A row of `account_summaries` (`seeds/init.sql`), minus the key column. -/
structure SummaryRow where
  ownerName : String
  balance : ℚ
  currency : String
  status : AccountStatus
  version : Nat
deriving DecidableEq, Repr

/-- A row of `transaction_history` (`seeds/init.sql`), minus the key column;
`type` is the `'DEPOSIT'`/`'WITHDRAWAL'` string. -/
structure TxnRow where
  accountId : String
  type : String
  amount : ℚ
  description : String
  timestamp : Int
deriving DecidableEq, Repr

/-- The two read-model tables, as partial maps from their primary keys. -/
@[ext]
structure ReadModels where
  summaries : String → Option SummaryRow
  transactions : String → Option TxnRow

/-- The empty read models (freshly created / truncated tables). -/
def emptyReadModels : ReadModels :=
  { summaries := fun _ => none, transactions := fun _ => none }

/-- Point update of a partial map (a keyed SQL write). -/
def setKey {β : Type} (f : String → Option β) (k : String) (v : Option β) :
    String → Option β :=
  fun x => if x = k then v else f x

/-- `UPDATE ... WHERE key = k`: updates the row if present, otherwise
changes nothing (zero rows affected). -/
def updateRow {β : Type} (f : String → Option β) (k : String) (g : β → β) :
    String → Option β :=
  match f k with
  | some r => setKey f k (some (g r))
  | none => f

/-- `INSERT ... ON CONFLICT (key) DO NOTHING`. -/
def insertRowIfAbsent {β : Type} (f : String → Option β) (k : String) (row : β) :
    String → Option β :=
  match f k with
  | some _ => f
  | none => setKey f k (some row)

/-- `data.description || 'Deposit'`: JavaScript `||` replaces both a missing
and an empty-string description by the default. -/
def jsOrDefault (s : Option String) (dflt : String) : String :=
  match s with
  | some v => if v = "" then dflt else v
  | none => dflt

/-- `SELECT version FROM account_summaries WHERE account_id = ...`, with the
`rows.length > 0 ? parseInt(version) : 0` default. -/
def summaryVersion (row : Option SummaryRow) : Nat :=
  match row with
  | some r => r.version
  | none => 0

/-- `Projector.project(event)`: one idempotent event application to the read
models, translated clause by clause from `Projector.ts`.
* The guard `event.version <= currentVersion && eventType !== AccountCreated`
  skips already-applied non-creation events.
* `AccountCreated` inserts the summary row only when none exists.
* `MoneyDeposited`/`MoneyWithdrawn` update balance and version of the
  existing summary row and insert a `transaction_history` row keyed by
  transaction id with `ON CONFLICT DO NOTHING`.
* `AccountClosed` updates status and version of the existing summary row. -/
def project (m : ReadModels) (e : DomainEvent) : ReadModels :=
  let row := m.summaries e.aggregateId
  let currentVersion := summaryVersion row
  match e.eventData with
  | .created ow init cur =>
      match row with
      | some _ => m
      | none =>
          let newRow : SummaryRow :=
            { ownerName := ow, balance := init, currency := cur,
              status := .OPEN, version := e.version }
          { m with summaries := setKey m.summaries e.aggregateId (some newRow) }
  | .deposited amt d tx =>
      if e.version ≤ currentVersion then m
      else
        let txnRow : TxnRow :=
          { accountId := e.aggregateId, type := "DEPOSIT", amount := amt,
            description := jsOrDefault d "Deposit", timestamp := e.timestamp }
        let upd := fun (r : SummaryRow) =>
          { r with balance := r.balance + amt, version := e.version }
        { summaries := updateRow m.summaries e.aggregateId upd
          transactions := insertRowIfAbsent m.transactions tx txnRow }
  | .withdrawn amt d tx =>
      if e.version ≤ currentVersion then m
      else
        let txnRow : TxnRow :=
          { accountId := e.aggregateId, type := "WITHDRAWAL", amount := amt,
            description := jsOrDefault d "Withdrawal", timestamp := e.timestamp }
        let upd := fun (r : SummaryRow) =>
          { r with balance := r.balance - amt, version := e.version }
        { summaries := updateRow m.summaries e.aggregateId upd
          transactions := insertRowIfAbsent m.transactions tx txnRow }
  | .closed _ =>
      if e.version ≤ currentVersion then m
      else
        let upd := fun (r : SummaryRow) =>
          { r with status := .CLOSED, version := e.version }
        { m with summaries := updateRow m.summaries e.aggregateId upd }

/-- A deposit or withdraw command against an existing account, as accepted by
`POST /accounts/:id/deposit` and `POST /accounts/:id/withdraw`. -/
inductive Op where
  | dep (now : Int) (amount : ℚ) (description : Option String) (transactionId : String)
  | wdr (now : Int) (amount : ℚ) (description : Option String) (transactionId : String)
deriving DecidableEq, Repr

/-- The transaction id carried by an `Op`. -/
def Op.txId : Op → String
  | .dep _ _ _ tx => tx
  | .wdr _ _ _ tx => tx

/-- The write-path tail of each route: project every uncommitted change into
the read models, then `markChangesAsCommitted()`.  (The `eventStore.save` and
snapshot steps do not affect the aggregate or the read models.) -/
def commitAndProject (a : BankAccount) (m : ReadModels) :
    BankAccount × ReadModels :=
  ({ a with changes := [] }, a.changes.foldl project m)

/-- One deposit/withdraw request: run the command handler and, on success,
project the emitted events (`routes.ts` per-event loop). -/
def runOp (w : BankAccount × ReadModels) (op : Op) :
    Except String (BankAccount × ReadModels) :=
  match op with
  | .dep now amt d tx =>
      (w.1.deposit now amt d tx).map (fun a' => commitAndProject a' w.2)
  | .wdr now amt d tx =>
      (w.1.withdraw now amt d tx).map (fun a' => commitAndProject a' w.2)

/-- A sequence of deposit/withdraw requests processed in order. -/
def runOps (w : BankAccount × ReadModels) (ops : List Op) :
    Except String (BankAccount × ReadModels) :=
  ops.foldlM runOp w

/-- `POST /accounts`: create the aggregate and project its creation event. -/
def initWorld (id ownerName : String) (initialBalance : ℚ) (currency : String)
    (now : Int) : BankAccount × ReadModels :=
  commitAndProject (BankAccount.create id ownerName initialBalance currency now)
    emptyReadModels

/-- Sum of the amounts of the deposit commands in a sequence. -/
def depositSum : List Op → ℚ
  | [] => 0
  | .dep _ amt _ _ :: rest => amt + depositSum rest
  | .wdr _ _ _ _ :: rest => depositSum rest

/-- Sum of the amounts of the withdraw commands in a sequence. -/
def withdrawSum : List Op → ℚ
  | [] => 0
  | .dep _ _ _ _ :: rest => withdrawSum rest
  | .wdr _ amt _ _ :: rest => amt + withdrawSum rest

/-- `GET /accounts/:id/balance-at/:timestamp`: filter the account's raw
events to those with timestamp ≤ target, 404 when none qualify, otherwise
hydrate the filtered prefix (no snapshot) and report its balance. -/
def balanceAt (events : List DomainEvent) (target : Int) : Option ℚ :=
  let relevantEvents := events.filter (fun e => e.timestamp ≤ target)
  if relevantEvents.isEmpty then none
  else some (BankAccount.hydrate relevantEvents none).state.balance

/-- Modelled from the spec (query-service contract, §4.6): replay exactly the
events with timestamp ≤ target through the aggregate's pure apply function,
starting from the fresh state; report not-found when no event qualifies. -/
def specBalanceAt (events : List DomainEvent) (target : Int) : Option ℚ :=
  let replayed := events.filter (fun e => e.timestamp ≤ target)
  match replayed with
  | [] => none
  | _ :: _ => some ((replayed.foldl BankAccount.apply BankAccount.new).state.balance)

/-- The `ORDER BY timestamp ASC, event_number ASC` key used by `rebuild()`. -/
def rebuildKeyLe (e e' : DomainEvent) : Prop :=
  e.timestamp < e'.timestamp ∨
    (e.timestamp = e'.timestamp ∧ e.eventNumber ≤ e'.eventNumber)

/-- Strict version of the rebuild ordering key. -/
def rebuildKeyLt (e e' : DomainEvent) : Prop :=
  e.timestamp < e'.timestamp ∨
    (e.timestamp = e'.timestamp ∧ e.eventNumber < e'.eventNumber)

instance (e e' : DomainEvent) : Decidable (rebuildKeyLe e e') := by
  unfold rebuildKeyLe; infer_instance

instance (e e' : DomainEvent) : Decidable (rebuildKeyLt e e') := by
  unfold rebuildKeyLt; infer_instance

/-- `rebuild()`: truncate both read-model tables and replay a listing of the
full event table in `(timestamp, event_number)` order through `project`.
The sorted listing is passed in explicitly; theorems about `rebuild`
constrain it to be a `(timestamp, event_number)`-sorted permutation of the
event log, which is exactly what the `SELECT ... ORDER BY` returns. -/
def rebuild (sortedEvents : List DomainEvent) : ReadModels :=
  sortedEvents.foldl project emptyReadModels

/-- The transaction-history key written by an event, if any. -/
def txnKey (e : DomainEvent) : Option String :=
  match e.eventData with
  | .deposited _ _ tx => some tx
  | .withdrawn _ _ tx => some tx
  | _ => none

/-- The effect of `project` on the summary row of the event's own aggregate,
as a function of that row alone. -/
def sumStep (row : Option SummaryRow) (e : DomainEvent) : Option SummaryRow :=
  let currentVersion := summaryVersion row
  match e.eventData with
  | .created ow init cur =>
      match row with
      | some _ => row
      | none =>
          some { ownerName := ow, balance := init, currency := cur,
                 status := .OPEN, version := e.version }
  | .deposited amt _ _ =>
      if e.version ≤ currentVersion then row
      else
        match row with
        | some r => some { r with balance := r.balance + amt, version := e.version }
        | none => none
  | .withdrawn amt _ _ =>
      if e.version ≤ currentVersion then row
      else
        match row with
        | some r => some { r with balance := r.balance - amt, version := e.version }
        | none => none
  | .closed _ =>
      if e.version ≤ currentVersion then row
      else
        match row with
        | some r => some { r with status := .CLOSED, version := e.version }
        | none => none

/-- The effect of `project` on the transaction row keyed by the event's own
transaction id, as a function of the event's summary row and that
transaction row. -/
def txnStep (row : Option SummaryRow) (txn : Option TxnRow) (e : DomainEvent) :
    Option TxnRow :=
  let currentVersion := summaryVersion row
  match e.eventData with
  | .deposited amt d _ =>
      if e.version ≤ currentVersion then txn
      else
        match txn with
        | some r => some r
        | none =>
            some { accountId := e.aggregateId, type := "DEPOSIT", amount := amt,
                   description := jsOrDefault d "Deposit", timestamp := e.timestamp }
  | .withdrawn amt d _ =>
      if e.version ≤ currentVersion then txn
      else
        match txn with
        | some r => some r
        | none =>
            some { accountId := e.aggregateId, type := "WITHDRAWAL", amount := amt,
                   description := jsOrDefault d "Withdrawal", timestamp := e.timestamp }
  | _ => txn

/-- Combined step on (summary row of aggregate `a`, transaction row at key
`t`) for an event of aggregate `a`. -/
def pairStep (t : String) (p : Option SummaryRow × Option TxnRow)
    (e : DomainEvent) : Option SummaryRow × Option TxnRow :=
  (sumStep p.1 e, if txnKey e = some t then txnStep p.1 p.2 e else p.2)

namespace Sample

/-- A concrete `AccountCreated` event. -/
def evCreate (id : String) (init : ℚ) (now : Int) : DomainEvent :=
  { eventId := "", aggregateId := id, aggregateType := "BankAccount",
    eventData := .created "o" init "USD", eventNumber := 1, timestamp := now,
    version := 1 }

/-- A concrete `MoneyDeposited` event. -/
def evDep (id : String) (n : Nat) (amt : ℚ) (tx : String) (now : Int) :
    DomainEvent :=
  { eventId := "", aggregateId := id, aggregateType := "BankAccount",
    eventData := .deposited amt none tx, eventNumber := n, timestamp := now,
    version := n }

/-- A concrete `MoneyWithdrawn` event. -/
def evWdr (id : String) (n : Nat) (amt : ℚ) (tx : String) (now : Int) :
    DomainEvent :=
  { eventId := "", aggregateId := id, aggregateType := "BankAccount",
    eventData := .withdrawn amt none tx, eventNumber := n, timestamp := now,
    version := n }

/-- A closed account that has processed transaction `"t1"` (for example after
deposit `"t1"`, a matching withdrawal, and a close). -/
def closedAcct : BankAccount :=
  { state := { accountId := "a", ownerName := "o", balance := 0,
               currency := "USD", status := .CLOSED,
               processedTransactionIds := ["t1"] },
    changes := [], version := 4 }

/-- An open account with balance 100 and processed transaction `"t1"`. -/
def openAcct100 : BankAccount :=
  { state := { accountId := "a", ownerName := "o", balance := 100,
               currency := "USD", status := .OPEN,
               processedTransactionIds := ["t1"] },
    changes := [], version := 2 }

end Sample

/-- C5: `EventStore.save` fails (with the concurrency-conflict error) exactly
when the log already holds an event with the same `(aggregateId, eventNumber)`
pair; otherwise it appends the event and nothing else.  In the pure model a
failed save returns no new log at all, which is the source's
`BEGIN`/`ROLLBACK` atomicity: a failure leaves the event table unchanged. -/
theorem c5_save_conflict_iff (log : List DomainEvent) (e : DomainEvent) :
    ((∃ x ∈ log, x.aggregateId = e.aggregateId ∧ x.eventNumber = e.eventNumber) →
      ∃ msg, EventStore.save log e = .error msg) ∧
    ((¬ ∃ x ∈ log, x.aggregateId = e.aggregateId ∧ x.eventNumber = e.eventNumber) →
      EventStore.save log e = .ok (log ++ [e])) := by
  constructor
  · intro hex
    unfold EventStore.save
    rw [if_pos]
    · exact ⟨_, rfl⟩
    · rw [List.any_eq_true]
      obtain ⟨x, hx, h1, h2⟩ := hex
      exact ⟨x, hx, by simp [h1, h2]⟩
  · intro hnex
    unfold EventStore.save
    rw [if_neg]
    intro hany
    rw [List.any_eq_true] at hany
    obtain ⟨x, hx, hdec⟩ := hany
    simp only [decide_eq_true_eq] at hdec
    exact hnex ⟨x, hx, hdec⟩

/-- Witness for C5 at concrete inputs: saving a second event with the same
`(aggregateId, eventNumber)` fails, saving a fresh one appends it. -/
theorem c5_save_conflict_iff_witness :
    (∃ msg, EventStore.save [Sample.evCreate "a" 100 0]
      (Sample.evDep "a" 1 5 "t1" 1) = .error msg) ∧
    EventStore.save [Sample.evCreate "a" 100 0] (Sample.evDep "a" 2 5 "t1" 1) =
      .ok ([Sample.evCreate "a" 100 0] ++ [Sample.evDep "a" 2 5 "t1" 1]) := by
  constructor
  · exact (c5_save_conflict_iff [Sample.evCreate "a" 100 0]
      (Sample.evDep "a" 1 5 "t1" 1)).1 (by decide)
  · exact (c5_save_conflict_iff [Sample.evCreate "a" 100 0]
      (Sample.evDep "a" 2 5 "t1" 1)).2 (by decide)

/-- C8: `close` fails with `AlreadyClosed` on a closed account and with
`NonZeroBalance` on an open account with non-zero balance, and it succeeds
only on an open account with balance exactly zero.  In the failure cases the
handler throws before building an event, so no event is produced and the
caller's aggregate is untouched (the `Except.error` carries no new state). -/
theorem c8_close_rules (a : BankAccount) (now : Int) (reason : Option String) :
    (a.state.status = .CLOSED → a.close now reason = .error "Account is already closed") ∧
    (a.state.status = .OPEN → a.state.balance ≠ 0 →
      a.close now reason = .error "Cannot close account with non-zero balance") ∧
    (∀ a', a.close now reason = .ok a' →
      a.state.status = .OPEN ∧ a.state.balance = 0) := by
  refine ⟨?_, ?_, ?_⟩
  · intro h
    simp [BankAccount.close, h]
  · intro hO hbal
    simp [BankAccount.close, hO, hbal]
  · intro a' h
    simp only [BankAccount.close] at h
    split at h
    · cases h
    · split at h
      · cases h
      · rename_i hnc hz
        constructor
        · cases hs : a.state.status with
          | OPEN => rfl
          | CLOSED => exact absurd hs hnc
        · exact not_ne_iff.mp hz

/-- Witness for C8 at concrete accounts: closing an already-closed account and
closing an open account with balance 100 both fail as claimed. -/
theorem c8_close_rules_witness :
    Sample.closedAcct.close 0 none = .error "Account is already closed" ∧
    Sample.openAcct100.close 0 none = .error "Cannot close account with non-zero balance" := by
  constructor
  · exact (c8_close_rules Sample.closedAcct 0 none).1 rfl
  · exact (c8_close_rules Sample.openAcct100 0 none).2.1 rfl (by norm_num [Sample.openAcct100])

/-- C2 counterexample: the claim quantifies over every account state, but the
command handlers check status (and amount, and for withdraw the balance)
before the processed-transaction set.  Retrying transaction `"t1"` against
`Sample.closedAcct`, whose processed set contains `"t1"`, raises
`Account is closed` instead of being a silent no-op. -/
theorem c2_duplicate_counterexample :
    "t1" ∈ Sample.closedAcct.state.processedTransactionIds ∧
    Sample.closedAcct.deposit 0 5 none "t1" = .error "Account is closed" := by
  exact ⟨by decide, rfl⟩

/-- C2 amended: for an OPEN account and a positive amount (and, for withdraw,
a sufficient balance), a deposit/withdraw whose transactionId is already in
the processed set is a true no-op: the handler returns the account unchanged,
emits no event, and raises no error. -/
theorem c2_duplicate_noop (a : BankAccount) (now : Int) (amt : ℚ)
    (d : Option String) (tx : String)
    (hO : a.state.status = .OPEN) (hamt : 0 < amt)
    (htx : tx ∈ a.state.processedTransactionIds) :
    a.deposit now amt d tx = .ok a ∧
    (amt ≤ a.state.balance → a.withdraw now amt d tx = .ok a) := by
  constructor
  · simp [BankAccount.deposit, hO, htx, not_le.mpr hamt]
  · intro hbal
    simp [BankAccount.withdraw, hO, htx, not_le.mpr hamt, not_lt.mpr hbal]

/-- Witness for the amended C2: retrying `"t1"` against the open sample
account is accepted and returns the account unchanged for both commands. -/
theorem c2_duplicate_noop_witness :
    Sample.openAcct100.deposit 0 5 none "t1" = .ok Sample.openAcct100 ∧
    Sample.openAcct100.withdraw 0 5 none "t1" = .ok Sample.openAcct100 := by
  have h := c2_duplicate_noop Sample.openAcct100 0 5 none "t1" rfl
    (by norm_num) (by decide)
  exact ⟨h.1, h.2 (by norm_num [Sample.openAcct100])⟩

/-- C9 counterexample: `apply` assigns `this.version = event.version` rather
than incrementing, so applying a replayed event with version 5 to a fresh
aggregate (version 0) advances the counter by 5, not by 1. -/
theorem c9_version_counterexample :
    BankAccount.new.version = 0 ∧
    (BankAccount.new.apply (Sample.evDep "a" 5 10 "t1" 0)).version = 5 ∧
    (5 : Nat) ≠ 0 + 1 := by
  exact ⟨rfl, rfl, by decide⟩

/-- C9 amended: `apply` sets the version to the applied event's `version`
field.  Every event emitted by a command handler carries
`version = current version + 1`, so a successful command advances the version
by exactly 1 (or leaves the aggregate untouched for an idempotent duplicate);
a replayed event advances the counter by 1 only when its version field is the
successor of the current version, as in a gapless history. -/
theorem c9_version_assignment :
    (∀ (a : BankAccount) (e : DomainEvent), (a.apply e).version = e.version) ∧
    (∀ (a : BankAccount) (now : Int) (amt : ℚ) (d : Option String)
        (tx : String) (a' : BankAccount),
      a.deposit now amt d tx = .ok a' → a' = a ∨ a'.version = a.version + 1) ∧
    (∀ (a : BankAccount) (now : Int) (amt : ℚ) (d : Option String)
        (tx : String) (a' : BankAccount),
      a.withdraw now amt d tx = .ok a' → a' = a ∨ a'.version = a.version + 1) ∧
    (∀ (a : BankAccount) (now : Int) (r : Option String) (a' : BankAccount),
      a.close now r = .ok a' → a'.version = a.version + 1) ∧
    (∀ (id ow : String) (init : ℚ) (cur : String) (now : Int),
      (BankAccount.create id ow init cur now).version = 1) := by
  refine ⟨fun a e => rfl, ?_, ?_, ?_, fun id ow init cur now => rfl⟩
  · intro a now amt d tx a' h
    simp only [BankAccount.deposit] at h
    split at h
    · cases h
    · split at h
      · cases h
      · split at h
        · cases h
          exact Or.inl rfl
        · cases h
          exact Or.inr rfl
  · intro a now amt d tx a' h
    simp only [BankAccount.withdraw] at h
    split at h
    · cases h
    · split at h
      · cases h
      · split at h
        · cases h
        · split at h
          · cases h
            exact Or.inl rfl
          · cases h
            exact Or.inr rfl
  · intro a now r a' h
    simp only [BankAccount.close] at h
    split at h
    · cases h
    · split at h
      · cases h
      · cases h
        rfl

/-- Witness for the amended C9: a fresh deposit against the open sample
account succeeds and bumps the version from 2 to 3. -/
theorem c9_version_assignment_witness :
    ∃ a', Sample.openAcct100.deposit 0 5 none "t9" = .ok a' ∧
      a'.version = Sample.openAcct100.version + 1 := by
  obtain ⟨a', ha⟩ : ∃ a', Sample.openAcct100.deposit 0 5 none "t9" = .ok a' :=
    ⟨_, rfl⟩
  rcases c9_version_assignment.2.1 Sample.openAcct100 0 5 none "t9" a' ha with
    h | h
  · exact absurd
      (congrArg
        (fun r => match r with | Except.ok b => b.version | Except.error _ => 0)
        (h ▸ ha))
      (by decide)
  · exact ⟨a', ha, h⟩

/-- Aggregate states reachable through accepted commands, starting from a
creation with non-negative initial balance (the `initialBalance < 0` guard of
`POST /accounts`). -/
inductive Reachable : BankAccount → Prop where
  | created (id ow cur : String) (init : ℚ) (now : Int) :
      0 ≤ init → Reachable (BankAccount.create id ow init cur now)
  | deposited (a a' : BankAccount) (now : Int) (amt : ℚ) (d : Option String)
      (tx : String) :
      Reachable a → a.deposit now amt d tx = .ok a' → Reachable a'
  | withdrawn (a a' : BankAccount) (now : Int) (amt : ℚ) (d : Option String)
      (tx : String) :
      Reachable a → a.withdraw now amt d tx = .ok a' → Reachable a'
  | closedStep (a a' : BankAccount) (now : Int) (r : Option String) :
      Reachable a → a.close now r = .ok a' → Reachable a'

/-- C10: every state reachable by accepted commands from a creation with
non-negative initial balance has a non-negative balance, and a withdrawal
whose amount exceeds the current balance of an open account is always
rejected with `Insufficient funds`. -/
theorem c10_balance_nonneg :
    (∀ a, Reachable a → 0 ≤ a.state.balance) ∧
    (∀ (a : BankAccount) (now : Int) (amt : ℚ) (d : Option String)
        (tx : String),
      a.state.status = .OPEN → 0 < amt → a.state.balance < amt →
      a.withdraw now amt d tx = .error "Insufficient funds") := by
  constructor
  · intro a h
    induction h with
    | created id ow cur init now hinit =>
        simpa [BankAccount.create, BankAccount.apply] using hinit
    | deposited a a' now amt d tx hr hok ih =>
        simp only [BankAccount.deposit] at hok
        split at hok
        · cases hok
        · split at hok
          · cases hok
          · split at hok
            · cases hok
              exact ih
            · rename_i hstatus hamt htx
              cases hok
              simp only [BankAccount.apply]
              have : (0 : ℚ) < amt := lt_of_not_le hamt
              linarith
    | withdrawn a a' now amt d tx hr hok ih =>
        simp only [BankAccount.withdraw] at hok
        split at hok
        · cases hok
        · split at hok
          · cases hok
          · split at hok
            · cases hok
            · split at hok
              · cases hok
                exact ih
              · rename_i hstatus hamt hbal htx
                cases hok
                simp only [BankAccount.apply]
                have : amt ≤ a.state.balance := not_lt.mp hbal
                linarith
    | closedStep a a' now r hr hok ih =>
        simp only [BankAccount.close] at hok
        split at hok
        · cases hok
        · split at hok
          · cases hok
          · cases hok
            simpa [BankAccount.apply] using ih
  · intro a now amt d tx hO hamt hbal
    simp [BankAccount.withdraw, hO, hbal, not_le.mpr hamt]

/-- Witness for C10: after creating an account with balance 5, the balance is
non-negative and withdrawing 7 is rejected with `Insufficient funds`. -/
theorem c10_balance_nonneg_witness :
    0 ≤ (BankAccount.create "a" "o" 5 "USD" 0).state.balance ∧
    (BankAccount.create "a" "o" 5 "USD" 0).withdraw 0 7 none "t1" =
      .error "Insufficient funds" := by
  constructor
  · exact c10_balance_nonneg.1 _ (Reachable.created "a" "o" "USD" 5 0 (by norm_num))
  · exact c10_balance_nonneg.2 (BankAccount.create "a" "o" 5 "USD" 0) 0 7 none
      "t1" rfl (by norm_num) (by norm_num [BankAccount.create, BankAccount.apply])

/-- Adding to a JavaScript `Set` keeps the backing list duplicate-free. -/
theorem jsSetAdd_nodup (s : List String) (t : String) (h : s.Nodup) :
    (jsSetAdd s t).Nodup := by
  unfold jsSetAdd
  split
  · exact h
  · rename_i htns
    rw [List.nodup_append]
    refine ⟨h, List.nodup_singleton t, ?_⟩
    intro x hx hx'
    rw [List.mem_singleton] at hx'
    subst hx'
    exact htns hx

/-- Folding `jsSetAdd` over fresh elements is plain concatenation. -/
theorem foldl_jsSetAdd_eq_append (l : List String) :
    ∀ acc : List String, (acc ++ l).Nodup → l.foldl jsSetAdd acc = acc ++ l := by
  induction l with
  | nil => intro acc _; simp
  | cons x xs ih =>
      intro acc h
      have hx : x ∉ acc := by
        intro hmem
        rw [List.nodup_append] at h
        exact h.2.2 hmem (List.mem_cons_self x xs)
      simp only [List.foldl_cons]
      rw [show jsSetAdd acc x = acc ++ [x] from by unfold jsSetAdd; rw [if_neg hx]]
      rw [ih (acc ++ [x]) (by simpa using h)]
      simp

/-- `new Set(array)` is the identity on duplicate-free arrays, as produced by
`Array.from` of a `Set`. -/
theorem jsSetFromList_eq_self (l : List String) (h : l.Nodup) :
    jsSetFromList l = l := by
  unfold jsSetFromList
  simpa using foldl_jsSetAdd_eq_append l [] (by simpa using h)

/-- Replaying events never touches the uncommitted-changes list. -/
theorem foldl_apply_changes (es : List DomainEvent) :
    ∀ a : BankAccount, (es.foldl BankAccount.apply a).changes = a.changes := by
  induction es with
  | nil => intro a; rfl
  | cons e tl ih =>
      intro a
      rw [List.foldl_cons, ih]
      cases he : e.eventData <;> rfl

/-- Replaying events keeps the processed-transaction list duplicate-free. -/
theorem foldl_apply_processed_nodup (es : List DomainEvent) :
    ∀ a : BankAccount, a.state.processedTransactionIds.Nodup →
      ((es.foldl BankAccount.apply a).state.processedTransactionIds).Nodup := by
  induction es with
  | nil => intro a h; exact h
  | cons e tl ih =>
      intro a h
      rw [List.foldl_cons]
      refine ih _ ?_
      cases he : e.eventData <;>
        simp only [BankAccount.apply, he] <;>
        first
          | exact h
          | exact jsSetAdd_nodup _ _ h

/-- In a gapless history (the `i`-th stored event carries version `i + 1`),
replaying the first `k` events from scratch leaves the aggregate at
version `k`. -/
theorem version_after_prefix (es : List DomainEvent)
    (H : ∀ (i : Nat) (h : i < es.length), (es.get ⟨i, h⟩).version = i + 1) :
    ∀ k, k ≤ es.length →
      ((es.take k).foldl BankAccount.apply BankAccount.new).version = k := by
  intro k
  induction k with
  | zero => intro _; rfl
  | succ k' ih =>
      intro hk
      have hk' : k' < es.length := Nat.lt_of_lt_of_le (Nat.lt_succ_self k') hk
      rw [← List.take_concat_get es k' hk', List.concat_eq_append,
        List.foldl_append]
      simp only [List.foldl_cons, List.foldl_nil]
      show (es.get ⟨k', hk'⟩).version = k' + 1
      exact H k' hk'

/-- In a gapless history (the `i`-th stored event carries event number
`off + i + 1`), the events with event number above `off + k` are exactly the
suffix after the first `k`. -/
theorem filter_eventNumber_gt_eq_drop (l : List DomainEvent) :
    ∀ (off k : Nat),
      (∀ (i : Nat) (h : i < l.length), (l.get ⟨i, h⟩).eventNumber = off + i + 1) →
      k ≤ l.length →
      l.filter (fun e => off + k < e.eventNumber) = l.drop k := by
  induction l with
  | nil => intro off k _ hk; simp
  | cons e tl ih =>
      intro off k H hk
      cases k with
      | zero =>
          rw [List.drop_zero, List.filter_eq_self]
          intro a ha
          obtain ⟨⟨i, hi⟩, rfl⟩ := List.mem_iff_get.mp ha
          simp only [decide_eq_true_eq]
          rw [H i hi]
          omega
      | succ k' =>
          have h0 : e.eventNumber = off + 1 := H 0 (by simp)
          rw [List.filter_cons, if_neg (by simp only [decide_eq_true_eq]; omega),
            List.drop_succ_cons]
          have hpred : (fun a : DomainEvent => decide (off + (k' + 1) < a.eventNumber)) =
              fun a : DomainEvent => decide (off + 1 + k' < a.eventNumber) := by
            funext a
            congr 1
            simp only [eq_iff_iff]
            omega
          rw [hpred]
          refine ih (off + 1) k' ?_ (by simpa using hk)
          intro i hi
          have := H (i + 1) (by simpa using hi)
          simpa [Nat.add_assoc, Nat.add_comm, Nat.add_left_comm] using this

/-- Serializing an aggregate (processed set written out as a list) and
restoring it round-trips, provided the processed list is duplicate-free, the
tagged last-event-number is the aggregate's version, and there are no
uncommitted changes. -/
theorem restore_toSnapshotData (a : BankAccount) (k : Nat)
    (hnodup : a.state.processedTransactionIds.Nodup)
    (hver : a.version = k) (hch : a.changes = []) :
    BankAccount.restoreFromSnapshot (a.toSnapshotData k) = a := by
  cases a with
  | mk st ch v =>
      cases st with
      | mk aid ow bal cur stt ptx =>
          simp only [BankAccount.restoreFromSnapshot, BankAccount.toSnapshotData] at *
          rw [jsSetFromList_eq_self _ hnodup, hver, hch]

/-- C3: for a gapless event history and any snapshot point `k`, replaying the
full history from scratch yields exactly the aggregate obtained by hydrating
from the state serialized after the first `k` events (processed-transaction
set written as a list, `last_event_number = k`) and replaying only the events
with event number greater than `k`. -/
theorem c3_snapshot_equivalence (es : List DomainEvent) (k : Nat)
    (hk : k ≤ es.length)
    (hnum : ∀ (i : Nat) (h : i < es.length),
      (es.get ⟨i, h⟩).eventNumber = i + 1 ∧ (es.get ⟨i, h⟩).version = i + 1) :
    BankAccount.hydrate es none =
      BankAccount.hydrate (es.filter (fun e => k < e.eventNumber))
        (some ((BankAccount.hydrate (es.take k) none).toSnapshotData k)) := by
  have hfilter : es.filter (fun e => k < e.eventNumber) = es.drop k := by
    have h := filter_eventNumber_gt_eq_drop es 0 k (fun i hi => by
      simpa using (hnum i hi).1) hk
    simpa using h
  have hnodup :
      (((es.take k).foldl BankAccount.apply BankAccount.new).state.processedTransactionIds).Nodup :=
    foldl_apply_processed_nodup _ _ (by simp [BankAccount.new])
  have hver := version_after_prefix es (fun i hi => (hnum i hi).2) k hk
  have hch : ((es.take k).foldl BankAccount.apply BankAccount.new).changes = [] :=
    foldl_apply_changes _ _
  simp only [BankAccount.hydrate]
  rw [hfilter, restore_toSnapshotData _ k hnodup hver hch]
  conv_lhs => rw [← List.take_append_drop k es]
  rw [List.foldl_append]

/-- Witness for C3 at a concrete two-event history with snapshot point 1. -/
theorem c3_snapshot_equivalence_witness :
    BankAccount.hydrate [Sample.evCreate "a" 100 0, Sample.evDep "a" 2 50 "t1" 10] none =
      BankAccount.hydrate
        (([Sample.evCreate "a" 100 0, Sample.evDep "a" 2 50 "t1" 10]).filter
          (fun e => 1 < e.eventNumber))
        (some ((BankAccount.hydrate
          (([Sample.evCreate "a" 100 0, Sample.evDep "a" 2 50 "t1" 10]).take 1)
          none).toSnapshotData 1)) := by
  exact c3_snapshot_equivalence
    [Sample.evCreate "a" 100 0, Sample.evDep "a" 2 50 "t1" 10] 1
    (by decide) (by decide)

/-- C7: the point-in-time balance route returns exactly the balance obtained
by replaying the events with timestamp ≤ target through the aggregate's pure
apply function from the fresh state, and reports not-found exactly when no
event qualifies; checked additionally on the spec's worked scenario (create
100 at time 0, deposit 50 at time 10, withdraw 30 at time 20). -/
theorem c7_balance_at_replay :
    (∀ (events : List DomainEvent) (target : Int),
      balanceAt events target = specBalanceAt events target) ∧
    (balanceAt [Sample.evCreate "a" 100 0, Sample.evDep "a" 2 50 "t1" 10,
        Sample.evWdr "a" 3 30 "t2" 20] 5 = some 100 ∧
      balanceAt [Sample.evCreate "a" 100 0, Sample.evDep "a" 2 50 "t1" 10,
        Sample.evWdr "a" 3 30 "t2" 20] 15 = some 150 ∧
      balanceAt [Sample.evCreate "a" 100 0, Sample.evDep "a" 2 50 "t1" 10,
        Sample.evWdr "a" 3 30 "t2" 20] 25 = some 120 ∧
      balanceAt [Sample.evCreate "a" 100 0, Sample.evDep "a" 2 50 "t1" 10,
        Sample.evWdr "a" 3 30 "t2" 20] (-1) = none) := by
  constructor
  · intro events target
    unfold balanceAt specBalanceAt
    cases h : events.filter (fun e => e.timestamp ≤ target) with
    | nil => simp [BankAccount.hydrate]
    | cons x xs => simp [BankAccount.hydrate]
  · refine ⟨by decide, ?_, ?_, by decide⟩
    · norm_num [balanceAt, BankAccount.hydrate, BankAccount.apply, BankAccount.new,
        Sample.evCreate, Sample.evDep, Sample.evWdr, List.filter, jsSetAdd]
    · norm_num [balanceAt, BankAccount.hydrate, BankAccount.apply, BankAccount.new,
        Sample.evCreate, Sample.evDep, Sample.evWdr, List.filter, jsSetAdd]

/-- Evaluating a point update. -/
theorem setKey_eval {β : Type} (f : String → Option β) (k : String)
    (v : Option β) (a : String) :
    setKey f k v a = if a = k then v else f a := rfl

/-- Evaluating a keyed `UPDATE`. -/
theorem updateRow_eval {β : Type} (f : String → Option β) (k : String)
    (g : β → β) (a : String) :
    updateRow f k g a = if a = k then Option.map g (f k) else f a := by
  unfold updateRow
  cases h : f k with
  | some r =>
      dsimp only
      rw [setKey_eval, Option.map_some']
  | none =>
      dsimp only
      rw [Option.map_none']
      by_cases ha : a = k
      · rw [if_pos ha, ha, h]
      · rw [if_neg ha]

/-- Evaluating a keyed `INSERT ... ON CONFLICT DO NOTHING`. -/
theorem insertRowIfAbsent_eval {β : Type} (f : String → Option β) (k : String)
    (row : β) (a : String) :
    insertRowIfAbsent f k row a = if a = k then some ((f k).getD row) else f a := by
  unfold insertRowIfAbsent
  cases h : f k with
  | some r =>
      dsimp only
      rw [Option.getD_some]
      by_cases ha : a = k
      · rw [if_pos ha, ha, h]
      · rw [if_neg ha]
  | none =>
      dsimp only
      rw [setKey_eval, Option.getD_none]

/-- `project` changes the summaries table only at the event's aggregate key,
and the new row there is `sumStep` of the old row. -/
theorem proj_summaries (m : ReadModels) (e : DomainEvent) (a : String) :
    (project m e).summaries a =
      if a = e.aggregateId then sumStep (m.summaries e.aggregateId) e
      else m.summaries a := by
  cases he : e.eventData with
  | created ow init cur =>
      simp only [project, sumStep, he]
      cases hrow : m.summaries e.aggregateId with
      | some r =>
          dsimp only
          by_cases ha : a = e.aggregateId
          · rw [if_pos ha, ha, hrow]
          · rw [if_neg ha]
      | none =>
          dsimp only
          rw [setKey_eval]
  | deposited amt d tx =>
      simp only [project, sumStep, he]
      by_cases hskip : e.version ≤ summaryVersion (m.summaries e.aggregateId)
      · rw [if_pos hskip, if_pos hskip]
        by_cases ha : a = e.aggregateId
        · rw [if_pos ha, ha]
        · rw [if_neg ha]
      · rw [if_neg hskip, if_neg hskip]
        dsimp only
        rw [updateRow_eval]
        cases hrow : m.summaries e.aggregateId with
        | some r => simp only [Option.map_some']
        | none => simp only [Option.map_none']
  | withdrawn amt d tx =>
      simp only [project, sumStep, he]
      by_cases hskip : e.version ≤ summaryVersion (m.summaries e.aggregateId)
      · rw [if_pos hskip, if_pos hskip]
        by_cases ha : a = e.aggregateId
        · rw [if_pos ha, ha]
        · rw [if_neg ha]
      · rw [if_neg hskip, if_neg hskip]
        dsimp only
        rw [updateRow_eval]
        cases hrow : m.summaries e.aggregateId with
        | some r => simp only [Option.map_some']
        | none => simp only [Option.map_none']
  | closed r =>
      simp only [project, sumStep, he]
      by_cases hskip : e.version ≤ summaryVersion (m.summaries e.aggregateId)
      · rw [if_pos hskip, if_pos hskip]
        by_cases ha : a = e.aggregateId
        · rw [if_pos ha, ha]
        · rw [if_neg ha]
      · rw [if_neg hskip, if_neg hskip]
        dsimp only
        rw [updateRow_eval]
        cases hrow : m.summaries e.aggregateId with
        | some r' => simp only [Option.map_some']
        | none => simp only [Option.map_none']

/-- `project` changes the transaction-history table only at the event's own
transaction-id key, and the new row there is `txnStep` of the old row given
the event's summary row. -/
theorem proj_transactions (m : ReadModels) (e : DomainEvent) (t : String) :
    (project m e).transactions t =
      (match txnKey e with
       | some tx =>
           if t = tx then txnStep (m.summaries e.aggregateId) (m.transactions t) e
           else m.transactions t
       | none => m.transactions t) := by
  cases he : e.eventData with
  | created ow init cur =>
      simp only [project, txnKey, he]
      cases hrow : m.summaries e.aggregateId with
      | some r => dsimp only
      | none => dsimp only
  | deposited amt d tx =>
      simp only [project, txnKey, txnStep, he]
      by_cases hskip : e.version ≤ summaryVersion (m.summaries e.aggregateId)
      · rw [if_pos hskip, if_pos hskip]
        by_cases ht : t = tx
        · rw [if_pos ht]
        · rw [if_neg ht]
      · rw [if_neg hskip]
        dsimp only
        rw [if_neg hskip]
        by_cases ht : t = tx
        · subst ht
          rw [insertRowIfAbsent_eval, if_pos rfl, if_pos rfl]
          cases htxn : m.transactions t with
          | some r => rw [Option.getD_some]
          | none => rw [Option.getD_none]
        · rw [insertRowIfAbsent_eval, if_neg ht, if_neg ht]
  | withdrawn amt d tx =>
      simp only [project, txnKey, txnStep, he]
      by_cases hskip : e.version ≤ summaryVersion (m.summaries e.aggregateId)
      · rw [if_pos hskip, if_pos hskip]
        by_cases ht : t = tx
        · rw [if_pos ht]
        · rw [if_neg ht]
      · rw [if_neg hskip]
        dsimp only
        rw [if_neg hskip]
        by_cases ht : t = tx
        · subst ht
          rw [insertRowIfAbsent_eval, if_pos rfl, if_pos rfl]
          cases htxn : m.transactions t with
          | some r => rw [Option.getD_some]
          | none => rw [Option.getD_none]
        · rw [insertRowIfAbsent_eval, if_neg ht, if_neg ht]
  | closed r =>
      simp only [project, txnKey, he]
      by_cases hskip : e.version ≤ summaryVersion (m.summaries e.aggregateId)
      · rw [if_pos hskip]
      · rw [if_neg hskip]

/-- Applying `sumStep` for the same event twice equals applying it once. -/
theorem sumStep_idem (row : Option SummaryRow) (e : DomainEvent) :
    sumStep (sumStep row e) e = sumStep row e := by
  cases he : e.eventData with
  | created ow init cur =>
      cases row with
      | some r => simp [sumStep, he]
      | none => simp [sumStep, he]
  | deposited amt d tx =>
      by_cases hskip : e.version ≤ summaryVersion row
      · have h1 : sumStep row e = row := by simp [sumStep, he, hskip]
        rw [h1, h1]
      · cases row with
        | some r =>
            have h1 : sumStep (some r) e =
                some { r with balance := r.balance + amt, version := e.version } := by
              simp [sumStep, he, hskip]
            rw [h1]
            simp [sumStep, he, summaryVersion]
        | none =>
            have h1 : sumStep none e = none := by
              simp [sumStep, he, hskip]
            rw [h1, h1]
  | withdrawn amt d tx =>
      by_cases hskip : e.version ≤ summaryVersion row
      · have h1 : sumStep row e = row := by simp [sumStep, he, hskip]
        rw [h1, h1]
      · cases row with
        | some r =>
            have h1 : sumStep (some r) e =
                some { r with balance := r.balance - amt, version := e.version } := by
              simp [sumStep, he, hskip]
            rw [h1]
            simp [sumStep, he, summaryVersion]
        | none =>
            have h1 : sumStep none e = none := by
              simp [sumStep, he, hskip]
            rw [h1, h1]
  | closed r =>
      by_cases hskip : e.version ≤ summaryVersion row
      · have h1 : sumStep row e = row := by simp [sumStep, he, hskip]
        rw [h1, h1]
      · cases row with
        | some r' =>
            have h1 : sumStep (some r') e =
                some { r' with status := .CLOSED, version := e.version } := by
              simp [sumStep, he, hskip]
            rw [h1]
            simp [sumStep, he, summaryVersion]
        | none =>
            have h1 : sumStep none e = none := by
              simp [sumStep, he, hskip]
            rw [h1, h1]

/-- Re-running `txnStep` for the same event on the post-states equals running
it once. -/
theorem txnStep_after (row : Option SummaryRow) (txn : Option TxnRow)
    (e : DomainEvent) :
    txnStep (sumStep row e) (txnStep row txn e) e = txnStep row txn e := by
  cases he : e.eventData with
  | created ow init cur => simp [txnStep, he]
  | closed r => simp [txnStep, he]
  | deposited amt d tx =>
      by_cases hskip : e.version ≤ summaryVersion row
      · have h1 : sumStep row e = row := by simp [sumStep, he, hskip]
        have h2 : txnStep row txn e = txn := by simp [txnStep, he, hskip]
        rw [h1, h2, h2]
      · cases row with
        | some r =>
            have h1 : sumStep (some r) e =
                some { r with balance := r.balance + amt, version := e.version } := by
              simp [sumStep, he, hskip]
            rw [h1]
            simp [txnStep, he, summaryVersion]
        | none =>
            have h1 : sumStep none e = none := by simp [sumStep, he, hskip]
            rw [h1]
            cases txn with
            | some r0 => simp [txnStep, he, hskip]
            | none => simp [txnStep, he, hskip]
  | withdrawn amt d tx =>
      by_cases hskip : e.version ≤ summaryVersion row
      · have h1 : sumStep row e = row := by simp [sumStep, he, hskip]
        have h2 : txnStep row txn e = txn := by simp [txnStep, he, hskip]
        rw [h1, h2, h2]
      · cases row with
        | some r =>
            have h1 : sumStep (some r) e =
                some { r with balance := r.balance - amt, version := e.version } := by
              simp [sumStep, he, hskip]
            rw [h1]
            simp [txnStep, he, summaryVersion]
        | none =>
            have h1 : sumStep none e = none := by simp [sumStep, he, hskip]
            rw [h1]
            cases txn with
            | some r0 => simp [txnStep, he, hskip]
            | none => simp [txnStep, he, hskip]

/-- C4: projection is idempotent.  Projecting the same event a second time
leaves the read models unchanged; moreover a non-creation event whose version
is at most the stored summary version is skipped outright, and a duplicate
`AccountCreated` for an existing summary row changes nothing. -/
theorem c4_projection_idempotent (m : ReadModels) (e : DomainEvent) :
    project (project m e) e = project m e ∧
    (e.eventType ≠ .AccountCreated →
      e.version ≤ summaryVersion (m.summaries e.aggregateId) → project m e = m) ∧
    (e.eventType = .AccountCreated → (m.summaries e.aggregateId).isSome →
      project m e = m) := by
  refine ⟨?_, ?_, ?_⟩
  · refine ReadModels.ext ?_ ?_
    · funext a
      simp only [proj_summaries]
      by_cases ha : a = e.aggregateId
      · simp [ha, sumStep_idem]
      · simp [ha]
    · funext t
      simp only [proj_transactions, proj_summaries]
      cases hk : txnKey e with
      | none => simp [hk]
      | some tx =>
          by_cases ht : t = tx
          · simp [hk, ht, txnStep_after]
          · simp [hk, ht]
  · intro hty hver
    cases he : e.eventData with
    | created ow init cur =>
        exact absurd (by simp [DomainEvent.eventType, he, EventData.eventType]) hty
    | deposited amt d tx => simp [project, he, hver]
    | withdrawn amt d tx => simp [project, he, hver]
    | closed r => simp [project, he, hver]
  · intro hty hsome
    cases he : e.eventData with
    | created ow init cur =>
        obtain ⟨r, hrow⟩ := Option.isSome_iff_exists.mp hsome
        simp [project, he, hrow]
    | deposited amt d tx =>
        exact absurd hty (by simp [DomainEvent.eventType, he, EventData.eventType])
    | withdrawn amt d tx =>
        exact absurd hty (by simp [DomainEvent.eventType, he, EventData.eventType])
    | closed r =>
        exact absurd hty (by simp [DomainEvent.eventType, he, EventData.eventType])

/-- Witness for C4's conditional clauses at concrete inputs: a duplicate
deposit event (version 2 against a summary already at version 2) is skipped,
and a duplicate `AccountCreated` leaves existing read models unchanged. -/
theorem c4_projection_idempotent_witness :
    project (project emptyReadModels (Sample.evCreate "a" 100 0))
        (Sample.evCreate "a" 100 0) =
      project emptyReadModels (Sample.evCreate "a" 100 0) ∧
    project (project (project emptyReadModels (Sample.evCreate "a" 100 0))
        (Sample.evDep "a" 2 50 "t1" 10)) (Sample.evDep "a" 2 50 "t1" 10) =
      project (project emptyReadModels (Sample.evCreate "a" 100 0))
        (Sample.evDep "a" 2 50 "t1" 10) := by
  constructor
  · exact (c4_projection_idempotent emptyReadModels (Sample.evCreate "a" 100 0)).1
  · exact (c4_projection_idempotent
      (project emptyReadModels (Sample.evCreate "a" 100 0))
      (Sample.evDep "a" 2 50 "t1" 10)).1

/-- C1 counterexample: creating an account with initial balance 100 and
issuing no further commands is a sequence of valid commands, yet the final
balance (100) differs from (sum of deposits) − (sum of withdrawals) = 0. -/
theorem c1_sum_counterexample :
    (initWorld "a" "o" 100 "USD" 0).1.state.balance = 100 ∧
    depositSum [] - withdrawSum [] = 0 ∧
    (initWorld "a" "o" 100 "USD" 0).1.state.balance ≠
      depositSum [] - withdrawSum [] := by
  have h1 : (initWorld "a" "o" 100 "USD" 0).1.state.balance = 100 := rfl
  have h2 : depositSum [] - withdrawSum [] = 0 := by
    norm_num [depositSum, withdrawSum]
  refine ⟨h1, h2, ?_⟩
  rw [h1, h2]
  norm_num

/-- Invariant for the write path: starting from an open account with an empty
uncommitted-changes list whose summary row mirrors its state, running any
accepted sequence of deposits/withdrawals with fresh, pairwise-distinct
transaction ids keeps the summary row in sync and adds
(sum of deposits − sum of withdrawals) to the balance. -/
theorem c1_run_inv (ops : List Op) :
    ∀ w : BankAccount × ReadModels,
      w.1.state.status = .OPEN →
      w.1.changes = [] →
      w.2.summaries w.1.state.accountId =
        some { ownerName := w.1.state.ownerName, balance := w.1.state.balance,
               currency := w.1.state.currency, status := .OPEN,
               version := w.1.version } →
      (∀ t ∈ w.1.state.processedTransactionIds, t ∉ ops.map Op.txId) →
      (ops.map Op.txId).Nodup →
      ∀ res, runOps w ops = Except.ok res →
        res.1.state.status = .OPEN ∧
        res.1.state.accountId = w.1.state.accountId ∧
        res.1.state.ownerName = w.1.state.ownerName ∧
        res.1.state.currency = w.1.state.currency ∧
        res.2.summaries res.1.state.accountId =
          some { ownerName := res.1.state.ownerName,
                 balance := res.1.state.balance,
                 currency := res.1.state.currency, status := .OPEN,
                 version := res.1.version } ∧
        res.1.state.balance = w.1.state.balance + depositSum ops - withdrawSum ops := by
  induction ops with
  | nil =>
      intro w hO hch hsum hfresh hnodup res hrun
      have hres : res = w := by
        replace hrun : Except.ok w = Except.ok res := hrun
        injection hrun with h
        exact h.symm
      subst hres
      refine ⟨hO, rfl, rfl, rfl, hsum, ?_⟩
      simp [depositSum, withdrawSum]
  | cons op rest ih =>
      intro w hO hch hsum hfresh hnodup res hrun
      have hbind : runOps w (op :: rest) = runOp w op >>= fun w' => runOps w' rest := rfl
      rw [hbind] at hrun
      cases hstep : runOp w op with
      | error msg =>
          rw [hstep] at hrun
          exact Except.noConfusion hrun
      | ok w' =>
          rw [hstep] at hrun
          replace hrun : runOps w' rest = Except.ok res := hrun
          have hnd := hnodup
          simp only [List.map_cons, List.nodup_cons] at hnd
          cases op with
          | dep now amt d tx =>
              have htx : tx ∉ w.1.state.processedTransactionIds := by
                intro hmem
                exact hfresh tx hmem (by simp [Op.txId])
              cases hdep : w.1.deposit now amt d tx with
              | error msg =>
                  rw [show runOp w (Op.dep now amt d tx) =
                      (w.1.deposit now amt d tx).map
                        (fun a' => commitAndProject a' w.2) from rfl, hdep] at hstep
                  exact Except.noConfusion hstep
              | ok a' =>
                  rw [show runOp w (Op.dep now amt d tx) =
                      (w.1.deposit now amt d tx).map
                        (fun a' => commitAndProject a' w.2) from rfl, hdep] at hstep
                  replace hstep : commitAndProject a' w.2 = w' := by
                    injection hstep with h
                  simp only [BankAccount.deposit, hO] at hdep
                  rw [if_neg (by simp)] at hdep
                  by_cases hamt : amt ≤ 0
                  · rw [if_pos hamt] at hdep
                    exact Except.noConfusion hdep
                  · rw [if_neg hamt, if_neg htx] at hdep
                    injection hdep with ha'
                    subst ha'
                    subst hstep
                    obtain ⟨hO', hid', how', hcur', hsum', hbal'⟩ :=
                      ih _ (by simpa [commitAndProject, BankAccount.apply] using hO)
                        (by simp [commitAndProject])
                        (by
                          simp only [commitAndProject, BankAccount.apply, hch,
                            List.nil_append, List.foldl_cons, List.foldl_nil]
                          rw [proj_summaries, if_pos rfl, hsum]
                          simp only [sumStep, summaryVersion]
                          rw [if_neg (Nat.not_succ_le_self _)])
                        (by
                          intro t ht
                          simp only [commitAndProject, BankAccount.apply,
                            jsSetAdd] at ht
                          rw [if_neg htx] at ht
                          simp only [List.mem_append, List.mem_singleton] at ht
                          rcases ht with ht | ht
                          · exact fun hmem => hfresh t ht (by simp [Op.txId, hmem])
                          · subst ht
                            exact hnd.1)
                        hnd.2 res hrun
                    refine ⟨hO', ?_, ?_, ?_, hsum', ?_⟩
                    · rw [hid']
                      simp [commitAndProject, BankAccount.apply]
                    · rw [how']
                      simp [commitAndProject, BankAccount.apply]
                    · rw [hcur']
                      simp [commitAndProject, BankAccount.apply]
                    · rw [hbal']
                      simp only [commitAndProject, BankAccount.apply,
                        depositSum, withdrawSum]
                      ring
          | wdr now amt d tx =>
              have htx : tx ∉ w.1.state.processedTransactionIds := by
                intro hmem
                exact hfresh tx hmem (by simp [Op.txId])
              cases hdep : w.1.withdraw now amt d tx with
              | error msg =>
                  rw [show runOp w (Op.wdr now amt d tx) =
                      (w.1.withdraw now amt d tx).map
                        (fun a' => commitAndProject a' w.2) from rfl, hdep] at hstep
                  exact Except.noConfusion hstep
              | ok a' =>
                  rw [show runOp w (Op.wdr now amt d tx) =
                      (w.1.withdraw now amt d tx).map
                        (fun a' => commitAndProject a' w.2) from rfl, hdep] at hstep
                  replace hstep : commitAndProject a' w.2 = w' := by
                    injection hstep with h
                  simp only [BankAccount.withdraw, hO] at hdep
                  rw [if_neg (by simp)] at hdep
                  by_cases hamt : amt ≤ 0
                  · rw [if_pos hamt] at hdep
                    exact Except.noConfusion hdep
                  · rw [if_neg hamt] at hdep
                    by_cases hbal : w.1.state.balance < amt
                    · rw [if_pos hbal] at hdep
                      exact Except.noConfusion hdep
                    · rw [if_neg hbal, if_neg htx] at hdep
                      injection hdep with ha'
                      subst ha'
                      subst hstep
                      obtain ⟨hO', hid', how', hcur', hsum', hbal'⟩ :=
                        ih _ (by simpa [commitAndProject, BankAccount.apply] using hO)
                          (by simp [commitAndProject])
                          (by
                            simp only [commitAndProject, BankAccount.apply, hch,
                              List.nil_append, List.foldl_cons, List.foldl_nil]
                            rw [proj_summaries, if_pos rfl, hsum]
                            simp only [sumStep, summaryVersion]
                            rw [if_neg (Nat.not_succ_le_self _)])
                          (by
                            intro t ht
                            simp only [commitAndProject, BankAccount.apply,
                              jsSetAdd] at ht
                            rw [if_neg htx] at ht
                            simp only [List.mem_append, List.mem_singleton] at ht
                            rcases ht with ht | ht
                            · exact fun hmem => hfresh t ht (by simp [Op.txId, hmem])
                            · subst ht
                              exact hnd.1)
                          hnd.2 res hrun
                      refine ⟨hO', ?_, ?_, ?_, hsum', ?_⟩
                      · rw [hid']
                        simp [commitAndProject, BankAccount.apply]
                      · rw [how']
                        simp [commitAndProject, BankAccount.apply]
                      · rw [hcur']
                        simp [commitAndProject, BankAccount.apply]
                      · rw [hbal']
                        simp only [commitAndProject, BankAccount.apply,
                          depositSum, withdrawSum]
                        ring

/-- C1 amended: for every accepted sequence of deposit/withdraw commands with
pairwise-distinct transaction ids against an account created with initial
balance `init ≥ 0`, the final aggregate balance equals
`init + (sum of deposit amounts) − (sum of withdrawal amounts)`, and the
account-summary read model holds exactly that balance (same owner, currency,
OPEN status, and the aggregate's version) after processing. -/
theorem c1_balance_accounting (id ow : String) (init : ℚ) (cur : String)
    (now : Int) (ops : List Op) (res : BankAccount × ReadModels)
    (hinit : 0 ≤ init)
    (hnodup : (ops.map Op.txId).Nodup)
    (hrun : runOps (initWorld id ow init cur now) ops = Except.ok res) :
    res.1.state.balance = init + depositSum ops - withdrawSum ops ∧
    res.2.summaries id =
      some { ownerName := ow, balance := res.1.state.balance, currency := cur,
             status := .OPEN, version := res.1.version } := by
  have hsum0 : (initWorld id ow init cur now).2.summaries
      ((initWorld id ow init cur now).1.state.accountId) =
      some { ownerName := (initWorld id ow init cur now).1.state.ownerName,
             balance := (initWorld id ow init cur now).1.state.balance,
             currency := (initWorld id ow init cur now).1.state.currency,
             status := .OPEN,
             version := (initWorld id ow init cur now).1.version } := by
    simp only [initWorld, commitAndProject, BankAccount.create, BankAccount.apply,
      BankAccount.new, List.nil_append, List.foldl_cons, List.foldl_nil]
    rw [proj_summaries, if_pos rfl]
    simp [sumStep, emptyReadModels]
  have hfresh : ∀ t ∈ (initWorld id ow init cur now).1.state.processedTransactionIds,
      t ∉ ops.map Op.txId := by
    intro t ht
    simp [initWorld, commitAndProject, BankAccount.create, BankAccount.apply,
      BankAccount.new] at ht
  obtain ⟨hO', hid', how', hcur', hsum', hbal'⟩ :=
    c1_run_inv ops (initWorld id ow init cur now) rfl rfl hsum0 hfresh hnodup res hrun
  have hidr : res.1.state.accountId = id := hid'.trans rfl
  have howr : res.1.state.ownerName = ow := how'.trans rfl
  have hcurr : res.1.state.currency = cur := hcur'.trans rfl
  constructor
  · rw [hbal']
    rfl
  · rw [← hidr, ← howr, ← hcurr]
    exact hsum'

/-- Witness for the amended C1: creating with 100 and depositing 50 yields
balance `100 + depositSum − withdrawSum` both in the aggregate and in the
account-summary read model. -/
theorem c1_balance_accounting_witness :
    ∃ res, runOps (initWorld "a" "o" 100 "USD" 0) [Op.dep 1 50 none "t1"] =
        Except.ok res ∧
      res.1.state.balance =
        100 + depositSum [Op.dep 1 50 none "t1"] -
          withdrawSum [Op.dep 1 50 none "t1"] ∧
      res.2.summaries "a" =
        some { ownerName := "o", balance := res.1.state.balance,
               currency := "USD", status := .OPEN, version := res.1.version } := by
  obtain ⟨res, hres⟩ : ∃ res,
      runOps (initWorld "a" "o" 100 "USD" 0) [Op.dep 1 50 none "t1"] =
        Except.ok res := ⟨_, rfl⟩
  have h := c1_balance_accounting "a" "o" 100 "USD" 0 [Op.dep 1 50 none "t1"]
    res (by norm_num) (by decide) hres
  exact ⟨res, hres, h.1, h.2⟩

/-- The summary row of aggregate `a` after a fold of `project` depends only
on the subsequence of events of aggregate `a`, folded through `sumStep`. -/
theorem foldl_project_summaries (h : List DomainEvent) :
    ∀ (m : ReadModels) (a : String),
      (h.foldl project m).summaries a =
        (h.filter (fun e => e.aggregateId = a)).foldl sumStep (m.summaries a) := by
  induction h with
  | nil => intro m a; rfl
  | cons e tl ih =>
      intro m a
      rw [List.foldl_cons, ih]
      by_cases ha : e.aggregateId = a
      · rw [List.filter_cons, if_pos (by simp [ha]), List.foldl_cons,
          proj_summaries, if_pos ha.symm, ha]
      · rw [List.filter_cons, if_neg (by simp [ha]),
          proj_summaries, if_neg (fun hh => ha hh.symm)]

/-- The pair (summary row of `a`, transaction row at `t`) after a fold of
`project` depends only on the subsequence of events of aggregate `a`, folded
through `pairStep`, provided every event carrying transaction id `t` belongs
to aggregate `a`. -/
theorem foldl_project_pair (h : List DomainEvent) :
    ∀ (m : ReadModels) (a t : String),
      (∀ e ∈ h, txnKey e = some t → e.aggregateId = a) →
      ((h.foldl project m).summaries a, (h.foldl project m).transactions t) =
        (h.filter (fun e => e.aggregateId = a)).foldl (pairStep t)
          (m.summaries a, m.transactions t) := by
  induction h with
  | nil => intro m a t _; rfl
  | cons e tl ih =>
      intro m a t H
      have Htl : ∀ e' ∈ tl, txnKey e' = some t → e'.aggregateId = a :=
        fun e' he' => H e' (List.mem_cons_of_mem _ he')
      rw [List.foldl_cons, ih (project m e) a t Htl]
      by_cases ha : e.aggregateId = a
      · have h1 : (project m e).summaries a = sumStep (m.summaries a) e := by
          rw [proj_summaries, if_pos ha.symm, ha]
        have h2 : (project m e).transactions t =
            if txnKey e = some t then txnStep (m.summaries a) (m.transactions t) e
            else m.transactions t := by
          rw [proj_transactions]
          cases hk : txnKey e with
          | none =>
              rw [if_neg (by simp)]
          | some tx =>
              dsimp only
              by_cases htx2 : t = tx
              · subst htx2
                rw [if_pos rfl, if_pos rfl, ha]
              · rw [if_neg htx2,
                  if_neg (fun hh => htx2 (Option.some.inj hh).symm)]
        have hseed : ((project m e).summaries a, (project m e).transactions t) =
            pairStep t (m.summaries a, m.transactions t) e := by
          simp only [pairStep]
          rw [h1, h2]
        rw [List.filter_cons, if_pos (by simp [ha]), List.foldl_cons, hseed]
      · have h1 : (project m e).summaries a = m.summaries a := by
          rw [proj_summaries, if_neg (fun hh => ha hh.symm)]
        have h2 : (project m e).transactions t = m.transactions t := by
          rw [proj_transactions]
          cases hk : txnKey e with
          | none => rfl
          | some tx =>
              dsimp only
              by_cases htx2 : t = tx
              · exact absurd (H e (List.mem_cons_self e tl) (by rw [hk, htx2])) ha
              · rw [if_neg htx2]
        have hseed : ((project m e).summaries a, (project m e).transactions t) =
            (m.summaries a, m.transactions t) := by
          rw [h1, h2]
        rw [List.filter_cons, if_neg (by simp [ha]), hseed]

/-- Events that never carry transaction id `t` never touch the transaction
row at `t`. -/
theorem foldl_project_transactions_isolated (h : List DomainEvent) :
    ∀ (m : ReadModels) (t : String),
      (∀ e ∈ h, txnKey e ≠ some t) →
      (h.foldl project m).transactions t = m.transactions t := by
  induction h with
  | nil => intro m t _; rfl
  | cons e tl ih =>
      intro m t H
      rw [List.foldl_cons,
        ih (project m e) t (fun e' he' => H e' (List.mem_cons_of_mem _ he')),
        proj_transactions]
      cases hk : txnKey e with
      | none => rfl
      | some tx =>
          dsimp only
          by_cases htx2 : t = tx
          · exact absurd (by rw [hk, htx2]) (H e (List.mem_cons_self e tl))
          · rw [if_neg htx2]

/-- Two event listings with the same per-aggregate subsequences produce
identical read models under `project`, provided no transaction id is shared
by events of two different aggregates. -/
theorem project_foldl_eq_of_filters (h h' : List DomainEvent)
    (Hfil : ∀ a : String, h'.filter (fun e => e.aggregateId = a) =
      h.filter (fun e => e.aggregateId = a))
    (Htx : ∀ e ∈ h, ∀ e' ∈ h, txnKey e ≠ none → txnKey e = txnKey e' →
      e.aggregateId = e'.aggregateId) :
    h'.foldl project emptyReadModels = h.foldl project emptyReadModels := by
  have hmem : ∀ e ∈ h', e ∈ h := by
    intro e he
    have h1 : e ∈ h'.filter (fun x => x.aggregateId = e.aggregateId) :=
      List.mem_filter.mpr ⟨he, by simp⟩
    rw [Hfil] at h1
    exact (List.mem_filter.mp h1).1
  refine ReadModels.ext ?_ ?_
  · funext a
    rw [foldl_project_summaries, foldl_project_summaries, Hfil]
  · funext t
    by_cases hex : ∃ e ∈ h, txnKey e = some t
    · obtain ⟨e0, he0, ht0⟩ := hex
      have Hh : ∀ e ∈ h, txnKey e = some t → e.aggregateId = e0.aggregateId := by
        intro e he het
        exact Htx e he e0 he0 (by rw [het]; exact Option.some_ne_none t)
          (by rw [het, ht0])
      have Hh' : ∀ e ∈ h', txnKey e = some t → e.aggregateId = e0.aggregateId :=
        fun e he het => Hh e (hmem e he) het
      have p1 := foldl_project_pair h emptyReadModels e0.aggregateId t Hh
      have p2 := foldl_project_pair h' emptyReadModels e0.aggregateId t Hh'
      rw [Hfil] at p2
      have := (congrArg Prod.snd p2).trans (congrArg Prod.snd p1).symm
      exact this
    · push_neg at hex
      rw [foldl_project_transactions_isolated h _ t hex,
        foldl_project_transactions_isolated h' _ t
          (fun e he => hex e (hmem e he))]

/-- Pair of sort keys used by `rebuild()`. -/
def rebuildKey (e : DomainEvent) : Int × Nat :=
  (e.timestamp, e.eventNumber)

/-- A weak key comparison together with distinct keys yields the strict one. -/
theorem rebuildKeyLt_of_le_ne (e e' : DomainEvent) (hle : rebuildKeyLe e e')
    (hne : rebuildKey e ≠ rebuildKey e') : rebuildKeyLt e e' := by
  rcases hle with h | ⟨h1, h2⟩
  · exact Or.inl h
  · right
    refine ⟨h1, ?_⟩
    rcases lt_or_eq_of_le h2 with h | h
    · exact h
    · exact absurd (by rw [rebuildKey, rebuildKey, h1, h]) hne

/-- Strictly ordered keys are distinct. -/
theorem rebuildKey_ne_of_lt (e e' : DomainEvent) (hlt : rebuildKeyLt e e') :
    rebuildKey e ≠ rebuildKey e' := by
  intro hEq
  have h1 : e.timestamp = e'.timestamp := congrArg Prod.fst hEq
  have h2 : e.eventNumber = e'.eventNumber := congrArg Prod.snd hEq
  rcases hlt with h | ⟨_, h⟩
  · omega
  · omega

/-- A `(timestamp, event_number)`-sorted permutation preserves each
aggregate's subsequence, provided the original history has strictly
increasing keys within each aggregate. -/
theorem filter_agg_eq_of_sorted_perm (h h' : List DomainEvent)
    (hperm : List.Perm h' h)
    (hsorted : h'.Pairwise rebuildKeyLe)
    (hmono : h.Pairwise (fun e e' =>
      e.aggregateId = e'.aggregateId → rebuildKeyLt e e'))
    (a : String) :
    h'.filter (fun e => e.aggregateId = a) =
      h.filter (fun e => e.aggregateId = a) := by
  have hp : List.Perm (h'.filter (fun e => e.aggregateId = a))
      (h.filter (fun e => e.aggregateId = a)) :=
    hperm.filter _
  have hs1 : (h.filter (fun e => e.aggregateId = a)).Pairwise rebuildKeyLt := by
    refine (hmono.filter _).imp_of_mem ?_
    intro e e' he he' hr
    have hea : e.aggregateId = a := by simpa using (List.mem_filter.mp he).2
    have hea' : e'.aggregateId = a := by simpa using (List.mem_filter.mp he').2
    exact hr (hea.trans hea'.symm)
  have hkey1 : ((h.filter (fun e => e.aggregateId = a)).map rebuildKey).Nodup :=
    List.pairwise_map.mpr (hs1.imp (fun hab => rebuildKey_ne_of_lt _ _ hab))
  have hkey2 : ((h'.filter (fun e => e.aggregateId = a)).map rebuildKey).Nodup :=
    ((hp.map rebuildKey).nodup_iff).mpr hkey1
  have hs1' : (h'.filter (fun e => e.aggregateId = a)).Pairwise rebuildKeyLe :=
    hsorted.filter _
  have hne' : (h'.filter (fun e => e.aggregateId = a)).Pairwise
      (fun e e' => rebuildKey e ≠ rebuildKey e') :=
    List.pairwise_map.mp hkey2
  have hstrict' : (h'.filter (fun e => e.aggregateId = a)).Pairwise rebuildKeyLt :=
    (hs1'.and hne').imp (fun hab => rebuildKeyLt_of_le_ne _ _ hab.1 hab.2)
  haveI : IsAntisymm DomainEvent rebuildKeyLt := by
    refine ⟨?_⟩
    intro x y hxy hyx
    exfalso
    rcases hxy with hh | ⟨h1, h2⟩ <;> rcases hyx with hh' | ⟨h1', h2'⟩ <;> omega
  exact List.eq_of_perm_of_sorted hp hstrict' hs1

/-- C6 amended: replaying any `(timestamp, event_number)`-sorted permutation
of the event history through `project` from truncated read models — which is
exactly what `rebuild()` does — yields read models identical to incremental
projection of the history in write order, provided (a) within each aggregate
the `(timestamp, event_number)` keys strictly increase along the history and
(b) no transaction id is carried by events of two different aggregates. -/
theorem c6_rebuild_equivalence (h h' : List DomainEvent)
    (hperm : List.Perm h' h)
    (hsorted : h'.Pairwise rebuildKeyLe)
    (hmono : h.Pairwise (fun e e' =>
      e.aggregateId = e'.aggregateId → rebuildKeyLt e e'))
    (htx : ∀ e ∈ h, ∀ e' ∈ h, txnKey e ≠ none → txnKey e = txnKey e' →
      e.aggregateId = e'.aggregateId) :
    rebuild h' = h.foldl project emptyReadModels := by
  unfold rebuild
  exact project_foldl_eq_of_filters h h'
    (fun a => filter_agg_eq_of_sorted_perm h h' hperm hsorted hmono a) htx

/-- C6 counterexample: if two different aggregates use the same transaction
id — which the write path does not prevent — the globally keyed
`transaction_history` row can record a different account after a rebuild.
Here the write order projects A's deposit (timestamp 3) before B's deposit
(timestamp 2), so the row for `"t"` belongs to A; the rebuild ordering
`(timestamp, event_number)` replays B's deposit first, so the rebuilt row
belongs to B. -/
theorem c6_rebuild_counterexample :
    List.Perm
      [Sample.evCreate "A" 0 0, Sample.evCreate "B" 0 0,
        Sample.evDep "B" 2 20 "t" 2, Sample.evDep "A" 2 10 "t" 3]
      [Sample.evCreate "A" 0 0, Sample.evCreate "B" 0 0,
        Sample.evDep "A" 2 10 "t" 3, Sample.evDep "B" 2 20 "t" 2] ∧
    ([Sample.evCreate "A" 0 0, Sample.evCreate "B" 0 0,
        Sample.evDep "B" 2 20 "t" 2,
        Sample.evDep "A" 2 10 "t" 3]).Pairwise rebuildKeyLe ∧
    rebuild
        [Sample.evCreate "A" 0 0, Sample.evCreate "B" 0 0,
          Sample.evDep "B" 2 20 "t" 2, Sample.evDep "A" 2 10 "t" 3] ≠
      ([Sample.evCreate "A" 0 0, Sample.evCreate "B" 0 0,
          Sample.evDep "A" 2 10 "t" 3,
          Sample.evDep "B" 2 20 "t" 2]).foldl project emptyReadModels := by
  refine ⟨by decide, by decide, ?_⟩
  intro hEq
  have h1 := congrArg (fun m => m.transactions "t") hEq
  exact absurd h1 (by decide)

/-- Witness for the amended C6 at a concrete interleaved history with
distinct transaction ids: the sorted replay and the write-order replay agree
on all read models. -/
theorem c6_rebuild_equivalence_witness :
    rebuild
        [Sample.evCreate "A" 0 0, Sample.evCreate "B" 0 0,
          Sample.evDep "B" 2 20 "tB" 2, Sample.evDep "A" 2 10 "tA" 3] =
      ([Sample.evCreate "A" 0 0, Sample.evCreate "B" 0 0,
          Sample.evDep "A" 2 10 "tA" 3,
          Sample.evDep "B" 2 20 "tB" 2]).foldl project emptyReadModels := by
  exact c6_rebuild_equivalence
    [Sample.evCreate "A" 0 0, Sample.evCreate "B" 0 0,
      Sample.evDep "A" 2 10 "tA" 3, Sample.evDep "B" 2 20 "tB" 2]
    [Sample.evCreate "A" 0 0, Sample.evCreate "B" 0 0,
      Sample.evDep "B" 2 20 "tB" 2, Sample.evDep "A" 2 10 "tA" 3]
    (by decide) (by decide) (by decide) (by decide)
